import Mathlib

/-!
# Verification of the fluent-jit plan compiler and adaptive buffer sizer

A shallow embedding of the `jit` Go package: the tree-walking plan
compiler (`compile.go`), the plan executor, the structural validator,
and the two-phase adaptive buffer sizer (`adaptive.go`), together with
proofs of the behavioural properties stated in the specification.
-/

namespace FluentJit

/-- Byte sequences (Go `[]byte`) are modelled as lists of naturals. -/
abbrev Bytes := List Nat

/-- Modelled from the spec: the external Node contract of the `fluent`
library (not part of this repository).  A node renders itself to bytes and
exposes ordered children; an `element` additionally has opening/closing tag
bytes (`RenderOpen` / `RenderClose`); a `container` (e.g. a fragment) wraps
no bytes of its own; a `leaf` is a static text node; a `dyn` node is a
dynamic node (dynamic text, function component, conditional builder, ...)
whose rendered output `content` may differ between instances of the same
tree shape. -/
inductive Node where
  | element (openB closeB : Bytes) (children : List Node)
  | container (children : List Node)
  | leaf (content : Bytes)
  | dyn (content : Bytes) (children : List Node)

namespace Node

/-- `Nodes()` of the Node contract: the ordered children. -/
def nodes : Node → List Node
  | .element _ _ cs => cs
  | .container cs => cs
  | .leaf _ => []
  | .dyn _ cs => cs

end Node

mutual

/-- Modelled from the spec: `RenderBuilder` of the Node contract — the node's
full byte output: an element writes its opening tag, its children, then its
closing tag; a container writes only its children; a leaf writes its static
content; a dynamic node writes its current dynamic output. -/
def render : Node → Bytes
  | .element o c cs => o ++ renderList cs ++ c
  | .container cs => renderList cs
  | .leaf b => b
  | .dyn b _ => b

/-- The concatenated rendering of a list of sibling nodes. -/
def renderList : List Node → Bytes
  | [] => []
  | n :: ns => render n ++ renderList ns

end

/-- `isDynamicNode` (jit.go): whether a single node itself is dynamic,
without looking at its children.  In the model exactly the `dyn`
constructor is dynamic. -/
def isDynamicNode : Node → Bool
  | .dyn _ _ => true
  | _ => false

mutual

/-- `isDynamic` (jit.go): whether a node or any descendant is dynamic. -/
def isDynamic (n : Node) : Bool :=
  isDynamicNode n || anyDynamic n.nodes
termination_by sizeOf n
decreasing_by
  cases n with
  | element o c cs => simp [Node.nodes]
  | container cs => simp [Node.nodes]
  | leaf b => cases b <;> simp [Node.nodes]
  | dyn b cs => simp [Node.nodes]

/-- `slices.ContainsFunc(children, isDynamic)`. -/
def anyDynamic : List Node → Bool
  | [] => false
  | n :: ns => isDynamic n || anyDynamic ns
termination_by l => sizeOf l
decreasing_by all_goals (simp <;> omega)

end

/-- `CompiledElement` (compile.go): tagged union of pre-rendered static
bytes (`StaticContent`) and index paths to dynamic nodes (`DynamicPath`). -/
inductive CompiledElement where
  | staticContent (content : Bytes)
  | dynamicPath (path : List Nat)
deriving DecidableEq, Repr

/-- An `ExecutionPlan` is the ordered list of compiled elements. -/
abbrev ExecutionPlan := List CompiledElement

/-- Path resolution: repeated child-indexing from `root` by the stored
indices, as in the loop of `DynamicPath.Render` and `Compiler.Validate`;
`none` when some index is out of range (`idx >= len(children)`). -/
def resolve (root : Node) : List Nat → Option Node
  | [] => some root
  | idx :: rest =>
    match root.nodes[idx]? with
    | some child => resolve child rest
    | none => none

/-- `DynamicPath.Render` (compile.go): navigate the current tree by the
stored path and render the resolved node; if an index is out of range the
element contributes no bytes (the early `return`). -/
def dynamicPathRender (root : Node) (path : List Nat) : Bytes :=
  match resolve root path with
  | some n => render n
  | none => []

/-- The bytes a single compiled element writes when executed against the
current root tree (`CompiledElement.Render`). -/
def elementRender (root : Node) : CompiledElement → Bytes
  | .staticContent b => b
  | .dynamicPath p => dynamicPathRender root p

/-- The plan executor: the render loop of `Compiler.Render` — each element
in order appends its bytes to the buffer. -/
def execPlan (root : Node) (plan : ExecutionPlan) : Bytes :=
  (plan.map (elementRender root)).flatten

mutual

/-- `Compiler.walk` (compile.go): depth-first traversal producing the
execution plan.  The Go code threads a static-byte buffer and the plan by
pointer; here they are passed and returned as state.  A dynamic node
flushes the pending static bytes (if any) and records a `DynamicPath`
(the Go code dispatches on `isDynamicNode`, which holds exactly for `dyn`
nodes); a node with some deeply dynamic child recurses — writing
opening/closing tag bytes when it is an Element — and an entirely static
subtree is rendered directly into the static buffer. -/
def walk (n : Node) (sb : Bytes) (plan : ExecutionPlan) (path : List Nat) :
    Bytes × ExecutionPlan :=
  match n with
  | .dyn _ _ =>
    if sb.length > 0 then
      ([], plan ++ [.staticContent sb] ++ [.dynamicPath path])
    else
      (sb, plan ++ [.dynamicPath path])
  | .element o c cs =>
    if anyDynamic cs then
      let r := walkChildren cs (sb ++ o) plan path 0
      (r.1 ++ c, r.2)
    else
      (sb ++ render (.element o c cs), plan)
  | .container cs =>
    if anyDynamic cs then
      walkChildren cs sb plan path 0
    else
      (sb ++ render (.container cs), plan)
  | .leaf b =>
    (sb ++ render (.leaf b), plan)

/-- The child loop of `Compiler.walk`: each child is walked with the path
extended by its index (`childPath := append(path, i)`). -/
def walkChildren (cs : List Node) (sb : Bytes) (plan : ExecutionPlan)
    (path : List Nat) (i : Nat) : Bytes × ExecutionPlan :=
  match cs with
  | [] => (sb, plan)
  | c :: rest =>
    let r := walk c sb plan (path ++ [i])
    walkChildren rest r.1 r.2 path (i + 1)

end

/-- `Compiler.compile`, plan-building part (compile.go): walk the root with
an empty buffer, empty plan and empty path, then flush any trailing static
content into a final `StaticContent` element. -/
def compile (root : Node) : ExecutionPlan :=
  let r := walk root [] [] []
  if r.1.length > 0 then r.2 ++ [.staticContent r.1] else r.2

/-! ## The adaptive buffer sizer (adaptive.go)

Go `int` values are modelled as `Int`; the code never overflows in the
modelled scenarios so no wrap-around is applied. -/

/-- `abs` (adaptive.go): absolute value of a Go int. -/
def goAbs (x : Int) : Int := if x < 0 then -x else x

/-- Go's `/` on int: truncated division (round toward zero).  Division by
zero, which would panic in Go, is mapped to 0 and never occurs on the
embedded code paths (the divisor is a positive count or the literal 100). -/
def goDiv (a b : Int) : Int :=
  a.sign * b.sign * ((a.natAbs / b.natAbs : Nat) : Int)

/-- `AdaptiveSizer` (adaptive.go).  The Go struct's atomics (`baseline`,
`active`, with `active` stored as an int64 flag) and mutex-protected
statistics are flattened into one record, as all claims are about the
sequential state machine. -/
structure AdaptiveSizer where
  baseline : Int
  active : Bool
  sum : Int
  count : Int
  max : Int
  variance : Int
  growthFactor : Int
deriving DecidableEq, Repr

/-- `NewAdaptiveSizer`: defaults max 5, variance 20, growthFactor 115,
sampling phase, zero baseline and statistics. -/
def newAdaptiveSizer : AdaptiveSizer :=
  { baseline := 0, active := true, sum := 0, count := 0,
    max := 5, variance := 20, growthFactor := 115 }

namespace AdaptiveSizer

/-- `GetBaseline`: the published baseline (lock-free read in Go). -/
def getBaseline (as : AdaptiveSizer) : Int := as.baseline

/-- `Configure`: replace parameters and reset all statistics, restarting
sampling with a zero baseline. -/
def configure (as : AdaptiveSizer) (max variance growthFactor : Int) :
    AdaptiveSizer :=
  { as with
    max := max, variance := variance, growthFactor := growthFactor,
    sum := 0, count := 0, baseline := 0, active := true }

/-- `Reset`: clear statistics and baseline, return to sampling. -/
def reset (as : AdaptiveSizer) : AdaptiveSizer :=
  { as with sum := 0, count := 0, baseline := 0, active := true }

/-- `sample` (adaptive.go): accumulate a sample; once `count >= max`,
compute `baseline = (sum/count * growthFactor) / 100` with truncating
integer division and switch to the baseline phase.  The leading re-check of
the `active` flag mirrors the Go double-check under the lock. -/
def sample (as : AdaptiveSizer) (size : Int) : AdaptiveSizer :=
  if as.active = false then as
  else
    let sum := as.sum + size
    let count := as.count + 1
    if count ≥ as.max then
      let average := goDiv sum count
      let newBaseline := goDiv (average * as.growthFactor) 100
      { as with
        sum := sum, count := count,
        baseline := newBaseline, active := false }
    else
      { as with sum := sum, count := count }

/-- `check` (adaptive.go): in the baseline phase, compare the observed size
with the baseline; when `|size - baseline| * 100 > baseline * variance`,
return to sampling seeded with this sample (`sum = size`, `count = 1`).
The published baseline itself is not modified. -/
def check (as : AdaptiveSizer) (size : Int) : AdaptiveSizer :=
  let baseline := as.getBaseline
  if baseline = 0 then as
  else if goAbs (size - baseline) * 100 > baseline * as.variance then
    { as with sum := size, count := 1, active := true }
  else as

/-- `UpdateStats`: route the observation to `sample` while sampling and to
`check` in the baseline phase. -/
def updateStats (as : AdaptiveSizer) (size : Int) : AdaptiveSizer :=
  if as.active then as.sample size else as.check size

end AdaptiveSizer

/-- A sequential call against the sizer's public mutating API, used to
describe the reachable states of an `AdaptiveSizer`. -/
inductive SizerOp where
  | configure (max variance growthFactor : Int)
  | reset
  | update (size : Int)
deriving DecidableEq, Repr

/-- Apply one API call to a sizer state. -/
def applySizerOp (as : AdaptiveSizer) : SizerOp → AdaptiveSizer
  | .configure max variance growthFactor => as.configure max variance growthFactor
  | .reset => as.reset
  | .update size => as.updateStats size

/-- The sizer state after `NewAdaptiveSizer` followed by a sequence of
API calls. -/
def runSizerOps (ops : List SizerOp) : AdaptiveSizer :=
  ops.foldl applySizerOp newAdaptiveSizer

/-! ## The Compiler (compile.go) -/

/-- `Compiler` (compile.go): one lazily built plan, one sizer, and the
conditional-update threshold.  `sync.Once` is represented by the option:
`none` before the single build, `some plan` afterwards. -/
structure Compiler where
  executionPlan : Option ExecutionPlan
  sizer : AdaptiveSizer
  threshold : Int
deriving DecidableEq, Repr

/-- `NewCompiler()` without a configuration: default threshold 15 and a
default sizer. -/
def newCompiler : Compiler :=
  { executionPlan := none, sizer := newAdaptiveSizer, threshold := 15 }

namespace Compiler

/-- `Compiler.shouldUpdateStats`: always update while no baseline exists
(`predicted == 0`); otherwise update only when
`|actual - predicted| * 100 > predicted * threshold`. -/
def shouldUpdateStats (jc : Compiler) (predicted actual : Int) : Bool :=
  if predicted = 0 then true
  else goAbs (actual - predicted) * 100 > predicted * jc.threshold

/-- `Compiler.compile` (compile.go): build the plan, then execute it once
against the original root and feed the resulting size to the sizer as the
initial sample. -/
def compileStep (jc : Compiler) (root : Node) : Compiler :=
  let plan := compile root
  let seedSize := (execPlan root plan).length
  { jc with
    executionPlan := some plan,
    sizer := jc.sizer.updateStats (seedSize : Int) }

/-- `Compiler.Render` (compile.go): build the plan on the first call
(`compileOnce`), read the sizer's baseline as the predicted size, execute
the plan against the current root, and feed the actual size back to the
sizer when `shouldUpdateStats` says so.  The returned `Bool` records
whether the render loop called `UpdateStats` on the sizer. -/
def render (jc : Compiler) (root : Node) : Bytes × Compiler × Bool :=
  let jc1 := match jc.executionPlan with
    | some _ => jc
    | none => jc.compileStep root
  match jc1.executionPlan with
  | none => ([], jc1, false)
  | some plan =>
    let predictedSize := jc1.sizer.getBaseline
    let out := execPlan root plan
    let actualSize : Int := (out.length : Int)
    if jc1.shouldUpdateStats predictedSize actualSize then
      (out, { jc1 with sizer := jc1.sizer.updateStats actualSize }, true)
    else
      (out, jc1, false)

end Compiler

/-! ## The structural validator (compile.go, `Compiler.Validate`) -/

/-- The data carried by the `ErrStructureMismatch` wrap produced by
`Compiler.Validate`: the failing path, the depth at which it failed, the
expected child index there, and the number of available children. -/
structure MismatchError where
  path : List Nat
  depth : Nat
  idx : Nat
  available : Nat
deriving DecidableEq, Repr

/-- The inner loop of `Compiler.Validate`: walk `rest` of a stored path
from node `n`, reporting the first index that is out of range together
with its depth and the available child count (`full` is the complete
stored path, reported in the error). -/
def resolveErr (n : Node) (full : List Nat) :
    List Nat → Nat → Option MismatchError
  | [], _ => none
  | idx :: rest, depth =>
    if h : idx < n.nodes.length then
      resolveErr n.nodes[idx] full rest (depth + 1)
    else
      some ⟨full, depth, idx, n.nodes.length⟩

/-- The element loop of `Compiler.Validate`: static elements are always
valid; the first `DynamicPath` that fails to resolve yields the error. -/
def validateElements (root : Node) : ExecutionPlan → Option MismatchError
  | [] => none
  | .staticContent _ :: rest => validateElements root rest
  | .dynamicPath p :: rest =>
    match resolveErr root p p 0 with
    | some e => some e
    | none => validateElements root rest

/-- `Compiler.Validate`: `none` (Go `nil`) when no plan has been built yet,
otherwise the first structure mismatch among the plan's dynamic paths. -/
def Compiler.validate (jc : Compiler) (root : Node) : Option MismatchError :=
  match jc.executionPlan with
  | none => none
  | some plan => validateElements root plan

/-! ## Structural similarity of trees

Two trees are structurally identical "up to dynamic content" when they have
the same shape and static bytes everywhere outside dynamic nodes, while at
corresponding dynamic positions anything may differ (a dynamic subtree is
re-evaluated wholesale at render time). -/

mutual

/-- Structural similarity: same constructors and static bytes outside
dynamic nodes; two dynamic nodes are always similar. -/
def similar : Node → Node → Bool
  | .dyn _ _, .dyn _ _ => true
  | .leaf b1, .leaf b2 => b1 == b2
  | .element o1 c1 cs1, .element o2 c2 cs2 =>
    o1 == o2 && c1 == c2 && similarList cs1 cs2
  | .container cs1, .container cs2 => similarList cs1 cs2
  | _, _ => false

/-- Pointwise structural similarity of child lists of equal length. -/
def similarList : List Node → List Node → Bool
  | [], [] => true
  | n :: ns, m :: ms => similar n m && similarList ns ms
  | _, _ => false

end

/-! ## Fixtures and small helpers used by the claim statements -/

/-- Feeding a list of observed sizes to a sizer, one `UpdateStats` call per
element, in order. -/
def feedSizer (as : AdaptiveSizer) (l : List Int) : AdaptiveSizer :=
  l.foldl AdaptiveSizer.updateStats as

/-- Restriction on API calls under which the baseline invariant holds:
every observed size is positive and every configured growth factor is at
least 100 percent (the default 115 qualifies). -/
def opOk : SizerOp → Bool
  | .configure _ _ growthFactor => 100 ≤ growthFactor
  | .reset => true
  | .update size => 1 ≤ size

/-- The sizer state after five samples of size 100 under the default
configuration: baseline 115, baseline phase. -/
def s115 : AdaptiveSizer := feedSizer newAdaptiveSizer (List.replicate 5 100)

/-- A compiler whose plan is already built, used to instantiate claims
about post-build renders. -/
def jcW : Compiler :=
  { newCompiler with executionPlan := some [.staticContent [7]] }

/-- First witness tree: `<div>Hello Alice</div>` with "Hello " static and
the name dynamic (bytes abstracted to small numerals). -/
def T1w : Node := .element [1] [2] [.leaf [10, 11], .dyn [65] []]

/-- Second witness tree: same structure as `T1w`, different dynamic
content. -/
def T2w : Node := .element [1] [2] [.leaf [10, 11], .dyn [66] []]

/-- A plan with one dynamic path at index 1, as built from an element with
a static first child and a dynamic second child. -/
def planV : ExecutionPlan := [.staticContent [1, 9], .dynamicPath [1], .staticContent [2]]

/-- A compiler holding `planV` as its built plan. -/
def jcV : Compiler := { newCompiler with executionPlan := some planV }

/-- A candidate tree with only one child: the dynamic path `[1]` of `planV`
cannot resolve in it. -/
def rootSmall : Node := .element [1] [2] [.leaf [9]]

/-- A candidate tree with two children: every path of `planV` resolves. -/
def rootOk : Node := .element [1] [2] [.leaf [9], .dyn [66] []]

/-- Inductive invariant of the sizer state machine under `opOk` calls:
growth factor at least 100, a nonnegative count bounded by the running sum,
and a positive baseline whenever the sizer is in the baseline phase. -/
def SizerInv (s : AdaptiveSizer) : Prop :=
  100 ≤ s.growthFactor ∧ 0 ≤ s.count ∧ s.count ≤ s.sum ∧
    (s.active = false → 1 ≤ s.baseline)

/-! ## General lemmas about the executor and path resolution -/

/-- Executing a concatenation of plans concatenates their outputs. -/
theorem execPlan_append (root : Node) (p1 p2 : ExecutionPlan) :
    execPlan root (p1 ++ p2) = execPlan root p1 ++ execPlan root p2 := by
  simp [execPlan]

/-- Path resolution splits along path concatenation. -/
theorem resolve_append (p q : List Nat) (root : Node) :
    resolve root (p ++ q) = (resolve root p).bind (fun n => resolve n q) := by
  induction p generalizing root with
  | nil => simp [resolve]
  | cons idx rest ih =>
    simp only [List.cons_append, resolve]
    cases h : root.nodes[idx]? with
    | none => simp
    | some child => simp [ih child]

/-! ## C3: out-of-range dynamic paths degrade silently -/

/-- C3: for every compiled plan and current root tree, a `DynamicPath`
element whose stored index is out of range at some depth (i.e. whose path
does not resolve) writes no bytes, and execution continues with the
remaining plan elements exactly as if the element were absent.  The render
path is a total function, so no structural error is ever raised. -/
theorem dynamicPath_resolution_failure_is_silent (root : Node) (p : List Nat)
    (pre post : ExecutionPlan) (h : resolve root p = none) :
    dynamicPathRender root p = [] ∧
    execPlan root (pre ++ [.dynamicPath p] ++ post) = execPlan root (pre ++ post) := by
  constructor
  · simp [dynamicPathRender, h]
  · simp [execPlan_append, execPlan, elementRender, dynamicPathRender, h]

/-- Witness for C3 at a concrete plan and tree: the path `[0]` does not
resolve in a childless leaf, so the dynamic element between two static
elements contributes nothing. -/
theorem dynamicPath_resolution_failure_is_silent_witness :
    resolve (Node.leaf []) [0] = none ∧
    (dynamicPathRender (Node.leaf []) [0] = [] ∧
      execPlan (Node.leaf [])
          ([.staticContent [1]] ++ [.dynamicPath [0]] ++ [.staticContent [2]]) =
        execPlan (Node.leaf []) ([.staticContent [1]] ++ [.staticContent [2]])) :=
  ⟨rfl, dynamicPath_resolution_failure_is_silent (Node.leaf []) [0]
    [.staticContent [1]] [.staticContent [2]] rfl⟩

/-! ## C5/C6: sizer arithmetic -/

/-- A complete sampling run: starting in the sampling phase, feeding exactly
enough samples to reach `max` accumulates their sum, computes
`baseline = ((sum / count) * growthFactor) / 100` with truncating division,
and switches to the baseline phase; no proper prefix triggers the
transition. -/
theorem feedSizer_sampling_run (l : List Int) :
    ∀ s : AdaptiveSizer, s.active = true → l ≠ [] →
    s.count + (l.length : Int) = s.max →
    feedSizer s l =
      { s with
        sum := s.sum + l.sum, count := s.max,
        baseline := goDiv (goDiv (s.sum + l.sum) s.max * s.growthFactor) 100,
        active := false } := by
  induction l with
  | nil => intro s _ hne _; exact absurd rfl hne
  | cons x tail ih =>
    intro s ha _ hm
    cases tail with
    | nil =>
      have hcnt : s.count + 1 = s.max := by simp at hm; omega
      have htr : s.count + 1 ≥ s.max := le_of_eq hcnt.symm
      simp [feedSizer, AdaptiveSizer.updateStats, ha, AdaptiveSizer.sample,
        htr, hcnt]
    | cons y rest =>
      have hnotr : ¬ s.count + 1 ≥ s.max := by simp at hm; omega
      have step : feedSizer s (x :: y :: rest) =
          feedSizer { s with sum := s.sum + x, count := s.count + 1 }
            (y :: rest) := by
        simp [feedSizer, AdaptiveSizer.updateStats, ha, AdaptiveSizer.sample,
          hnotr]
      rw [step, ih]
      · simp [add_assoc]
      · simpa using ha
      · simp
      · simp at hm ⊢; omega

/-- C5: once the sample count reaches `maxSamples` the sizer sets
`baseline = ((sum of samples / count) * growthFactorPct) / 100` in
truncating integer arithmetic and transitions to the baseline phase; the
baseline depends only on the multiset of samples (any permutation gives the
same value); five samples of 100 under the default growth factor 115 give
baseline 115, and the samples {80, 100, 120, 90, 110} give baseline 115 in
every order. -/
theorem sampling_baseline_formula (s0 : AdaptiveSizer) (l : List Int)
    (ha : s0.active = true) (hs : s0.sum = 0) (hc : s0.count = 0)
    (hne : l ≠ []) (hm : (l.length : Int) = s0.max) :
    (feedSizer s0 l).baseline =
      goDiv (goDiv l.sum s0.max * s0.growthFactor) 100 ∧
    (feedSizer s0 l).active = false ∧
    (∀ l2 : List Int, l2.Perm l →
      (feedSizer s0 l2).baseline = (feedSizer s0 l).baseline) ∧
    (feedSizer newAdaptiveSizer (List.replicate 5 100)).baseline = 115 ∧
    (∀ l3 : List Int, l3.Perm [80, 100, 120, 90, 110] →
      (feedSizer newAdaptiveSizer l3).baseline = 115) := by
  have hrun := feedSizer_sampling_run l s0 ha hne (by omega)
  refine ⟨by rw [hrun]; simp [hs], by rw [hrun], ?_, by decide, ?_⟩
  · intro l2 hperm
    have hrun2 := feedSizer_sampling_run l2 s0 ha
      (by
        intro hnil
        have hp := hperm.symm
        rw [hnil] at hp
        exact hne hp.eq_nil)
      (by rw [hperm.length_eq]; omega)
    rw [hrun, hrun2, hperm.sum_eq]
  · intro l3 hperm
    have hrun3 := feedSizer_sampling_run l3 newAdaptiveSizer rfl
      (by intro hnil; rw [hnil] at hperm; exact absurd hperm.symm.eq_nil (by decide))
      (by rw [hperm.length_eq]; decide)
    rw [hrun3, hperm.sum_eq]
    decide

/-- Witness for C5 at the concrete run of five samples of 100 from a fresh
sizer. -/
theorem sampling_baseline_formula_witness :
    (feedSizer newAdaptiveSizer (List.replicate 5 100)).baseline =
      goDiv (goDiv (List.replicate 5 (100 : Int)).sum newAdaptiveSizer.max *
        newAdaptiveSizer.growthFactor) 100 :=
  (sampling_baseline_formula newAdaptiveSizer (List.replicate 5 100)
    rfl rfl rfl (by decide) (by decide)).1

/-- C6: in the baseline phase with a nonzero baseline, `UpdateStats(size)`
reverts to sampling exactly when
`|size - baseline| * 100 > baseline * varianceThresholdPct`, and on
reverting seeds the new run with `sum = size`, `count = 1`; with baseline
115 and threshold 20, size 130 does not trigger resampling and size 200
does, seeded with 200 as the single new sample. -/
theorem variance_check_revert (s : AdaptiveSizer) (size : Int)
    (hph : s.active = false) (hb : s.baseline ≠ 0) :
    ((s.updateStats size).active = true ↔
      goAbs (size - s.baseline) * 100 > s.baseline * s.variance) ∧
    (goAbs (size - s.baseline) * 100 > s.baseline * s.variance →
      s.updateStats size = { s with sum := size, count := 1, active := true }) ∧
    ((s115.updateStats 130).active = false ∧
      (s115.updateStats 200).active = true ∧
      (s115.updateStats 200).sum = 200 ∧ (s115.updateStats 200).count = 1) := by
  refine ⟨?_, ?_, by decide, by decide, by decide, by decide⟩
  · simp only [AdaptiveSizer.updateStats, hph, Bool.false_eq_true, if_false,
      AdaptiveSizer.check, AdaptiveSizer.getBaseline, hb, if_false]
    split
    next htr => simpa using htr
    next htr => simpa [hph] using htr
  · intro htr
    simp only [AdaptiveSizer.updateStats, hph, Bool.false_eq_true, if_false,
      AdaptiveSizer.check, AdaptiveSizer.getBaseline, hb, if_false]
    rw [if_pos htr]

/-- Witness for C6 at the concrete state with baseline 115, variance
threshold 20 and the triggering sample 200. -/
theorem variance_check_revert_witness :
    (s115.updateStats 200).active = true ↔
      goAbs (200 - s115.baseline) * 100 > s115.baseline * s115.variance :=
  (variance_check_revert s115 200 (by decide) (by decide)).1

/-! ## C9: what happens to the published baseline on a variance revert -/

/-- Counterexample to C9 as stated: with baseline 115 (five samples of 100)
and variance threshold 20, the triggering call `UpdateStats(200)` returns
the sizer to sampling but `GetBaseline` still returns 115, not 0 — `check`
never clears the published baseline. -/
theorem revert_keeps_baseline_cex :
    s115.active = false ∧ s115.getBaseline = 115 ∧
    (s115.updateStats 200).active = true ∧
    (s115.updateStats 200).getBaseline = 115 := by decide

/-- C9 (amended): when an `UpdateStats` call in the baseline phase exceeds
the variance threshold, the sizer reverts to sampling but keeps publishing
the previous baseline: `GetBaseline` continues to return the old value, and
sampling steps that do not yet reach `max` never change it, so the old
baseline stays published until a new one is computed from the new
samples. -/
theorem revert_keeps_old_baseline (s : AdaptiveSizer) (size : Int)
    (hph : s.active = false) (hb : s.baseline ≠ 0)
    (htr : goAbs (size - s.baseline) * 100 > s.baseline * s.variance) :
    (s.updateStats size).active = true ∧
    (s.updateStats size).getBaseline = s.getBaseline ∧
    (∀ (t : AdaptiveSizer) (x : Int), t.active = true → ¬ t.count + 1 ≥ t.max →
      (t.updateStats x).getBaseline = t.getBaseline) := by
  refine ⟨?_, ?_, ?_⟩
  · simp [AdaptiveSizer.updateStats, hph, AdaptiveSizer.check,
      AdaptiveSizer.getBaseline, hb, htr]
  · simp [AdaptiveSizer.updateStats, hph, AdaptiveSizer.check,
      AdaptiveSizer.getBaseline, hb, htr]
  · intro t x ht hnm
    simp [AdaptiveSizer.updateStats, ht, AdaptiveSizer.sample, hnm,
      AdaptiveSizer.getBaseline]

/-- Witness for the amended C9 at the concrete baseline-115 state and the
triggering sample 200. -/
theorem revert_keeps_old_baseline_witness :
    (s115.updateStats 200).active = true ∧
    (s115.updateStats 200).getBaseline = s115.getBaseline :=
  ⟨(revert_keeps_old_baseline s115 200 (by decide) (by decide) (by decide)).1,
   (revert_keeps_old_baseline s115 200 (by decide) (by decide) (by decide)).2.1⟩

/-! ## C8: the baseline/phase invariant -/

/-- Counterexample to C8 as stated: five `UpdateStats(0)` calls on a fresh
sizer are a reachable call sequence after which the sizer is in the
baseline phase with baseline 0 — the average of the all-zero samples is 0,
so the published baseline is 0 outside the sampling phase. -/
theorem baseline_zero_in_baseline_phase_cex :
    (runSizerOps (List.replicate 5 (.update 0))).active = false ∧
    (runSizerOps (List.replicate 5 (.update 0))).baseline = 0 := by decide

/-- Truncating division of a positive value by a positive divisor that it
dominates is at least 1. -/
theorem goDiv_one_le {a b : Int} (hb : 0 < b) (hab : b ≤ a) : 1 ≤ goDiv a b := by
  have ha : 0 < a := lt_of_lt_of_le hb hab
  have hna : a.natAbs = a.toNat := by omega
  have hnb : b.natAbs = b.toNat := by omega
  have hdiv : 1 ≤ a.natAbs / b.natAbs := by
    rw [hna, hnb, Nat.one_le_div_iff (by omega)]
    omega
  simp only [goDiv, Int.sign_eq_one_of_pos ha, Int.sign_eq_one_of_pos hb,
    one_mul]
  exact_mod_cast hdiv

/-- One sizer API call preserves the inductive invariant. -/
theorem sizerInv_step (s : AdaptiveSizer) (op : SizerOp)
    (hInv : SizerInv s) (hop : opOk op = true) :
    SizerInv (applySizerOp s op) := by
  obtain ⟨hgf, hc0, hcs, hbl⟩ := hInv
  cases op with
  | configure m v g =>
    simp only [opOk, decide_eq_true_eq] at hop
    refine ⟨by simpa [applySizerOp, AdaptiveSizer.configure] using hop, ?_, ?_, ?_⟩ <;>
      simp [applySizerOp, AdaptiveSizer.configure]
  | reset =>
    exact ⟨by simpa [applySizerOp, AdaptiveSizer.reset] using hgf,
      by simp [applySizerOp, AdaptiveSizer.reset],
      by simp [applySizerOp, AdaptiveSizer.reset],
      by simp [applySizerOp, AdaptiveSizer.reset]⟩
  | update size =>
    simp only [opOk, decide_eq_true_eq] at hop
    simp only [applySizerOp, AdaptiveSizer.updateStats]
    cases hact : s.active with
    | true =>
      simp only [if_pos rfl, AdaptiveSizer.sample, hact]
      simp only [Bool.true_eq_false, if_false]
      by_cases hm : s.count + 1 ≥ s.max
      · simp only [if_pos hm]
        have havg : 1 ≤ goDiv (s.sum + size) (s.count + 1) :=
          goDiv_one_le (by omega) (by omega)
        have hmul : (100 : Int) ≤ goDiv (s.sum + size) (s.count + 1) * s.growthFactor := by
          calc (100 : Int) ≤ s.growthFactor := hgf
          _ ≤ goDiv (s.sum + size) (s.count + 1) * s.growthFactor :=
              le_mul_of_one_le_left (by omega) havg
        exact ⟨hgf, by simp <;> omega, by simp <;> omega,
          fun _ => goDiv_one_le (by omega) hmul⟩
      · simp only [if_neg hm]
        exact ⟨hgf, by simp <;> omega, by simp <;> omega, by simp [hact]⟩
    | false =>
      simp only [Bool.false_eq_true, if_false, AdaptiveSizer.check,
        AdaptiveSizer.getBaseline]
      have hb1 : 1 ≤ s.baseline := hbl hact
      rw [if_neg (by omega)]
      by_cases htr : goAbs (size - s.baseline) * 100 > s.baseline * s.variance
      · rw [if_pos htr]
        exact ⟨hgf, by simp, by simp <;> omega, by simp <;> omega⟩
      · rw [if_neg htr]
        exact ⟨hgf, hc0, hcs, hbl⟩

/-- The invariant holds after any `opOk` call sequence from any invariant
state. -/
theorem sizerInv_fold (ops : List SizerOp) :
    ∀ s : AdaptiveSizer, SizerInv s → (∀ op ∈ ops, opOk op = true) →
    SizerInv (ops.foldl applySizerOp s) := by
  induction ops with
  | nil => intro s hInv _; simpa using hInv
  | cons op rest ih =>
    intro s hInv hok
    simp only [List.foldl_cons]
    exact ih (applySizerOp s op)
      (sizerInv_step s op hInv (hok op (by simp)))
      (fun o ho => hok o (by simp [ho]))

/-- C8 (amended): for every sizer state reachable from `NewAdaptiveSizer`
by `Configure`, `Reset` and `UpdateStats` calls in which every observed
size is positive and every configured growth factor is at least 100
percent, the baseline is 0 only while the phase is Sampling: in the
baseline phase the published baseline is positive, hence nonzero.  (The
restriction is forced: all-zero samples reach the baseline phase with
baseline 0, see the counterexample.) -/
theorem baseline_nonzero_in_baseline_phase (ops : List SizerOp)
    (hok : ∀ op ∈ ops, opOk op = true)
    (hph : (runSizerOps ops).active = false) :
    (runSizerOps ops).baseline ≠ 0 ∧ 1 ≤ (runSizerOps ops).baseline := by
  have hInv := sizerInv_fold ops newAdaptiveSizer
    ⟨by decide, by decide, by decide, by decide⟩ hok
  have h1 : 1 ≤ (runSizerOps ops).baseline := hInv.2.2.2 hph
  exact ⟨by omega, h1⟩

/-- Witness for the amended C8: five positive samples of 100 land in the
baseline phase with the nonzero baseline 115. -/
theorem baseline_nonzero_in_baseline_phase_witness :
    (runSizerOps (List.replicate 5 (.update 100))).baseline ≠ 0 ∧
    1 ≤ (runSizerOps (List.replicate 5 (.update 100))).baseline :=
  baseline_nonzero_in_baseline_phase (List.replicate 5 (.update 100))
    (by decide) (by decide)

/-! ## C7: when Render feeds the actual size back to the sizer -/

/-- An empty fully static tree compiles to the empty plan (nothing is ever
written to the static buffer, so the final flush is skipped). -/
theorem compile_container_nil : compile (Node.container []) = [] := by
  simp [compile, walk, anyDynamic, render, renderList]

/-- Counterexample to C7 as stated: rendering an empty container on a
fresh compiler builds an empty plan, so predicted and actual sizes are both
0; the render loop still calls `UpdateStats` (because `shouldUpdateStats`
returns true whenever `predicted == 0`), although
`|actual - predicted| * 100 > predicted * threshold` is false. -/
theorem render_updates_without_deviation_cex :
    (newCompiler.render (Node.container [])).2.2 = true ∧
    (newCompiler.compileStep (Node.container [])).sizer.getBaseline = 0 ∧
    (newCompiler.render (Node.container [])).1 = [] ∧
    ¬ (goAbs (((newCompiler.render (Node.container [])).1.length : Int) -
          (newCompiler.compileStep (Node.container [])).sizer.getBaseline) * 100 >
        (newCompiler.compileStep (Node.container [])).sizer.getBaseline *
          newCompiler.threshold) := by
  refine ⟨?_, ?_, ?_, ?_⟩ <;>
    simp [Compiler.render, Compiler.compileStep, compile_container_nil,
      execPlan, Compiler.shouldUpdateStats, AdaptiveSizer.updateStats,
      AdaptiveSizer.sample, AdaptiveSizer.getBaseline, newCompiler,
      newAdaptiveSizer, goAbs]

/-- C7 (amended): on every Render call once the plan exists, the Compiler
reads the sizer's baseline as the predicted size, the output is the plan
executed against the current root, and the sizer's `UpdateStats` is called
with the actual size exactly when the predicted size is 0 (no baseline yet)
or `|actual - predicted| * 100 > predicted * threshold`. -/
theorem render_updates_iff_deviation (jc : Compiler) (root : Node)
    (plan : ExecutionPlan) (h : jc.executionPlan = some plan) :
    (jc.render root).1 = execPlan root plan ∧
    ((jc.render root).2.2 = true ↔
      jc.sizer.getBaseline = 0 ∨
      goAbs (((execPlan root plan).length : Int) - jc.sizer.getBaseline) * 100 >
        jc.sizer.getBaseline * jc.threshold) ∧
    ((jc.render root).2.2 = true →
      (jc.render root).2.1.sizer =
        jc.sizer.updateStats ((execPlan root plan).length : Int)) ∧
    ((jc.render root).2.2 = false → (jc.render root).2.1.sizer = jc.sizer) := by
  by_cases hb : jc.sizer.baseline = 0
  · refine ⟨?_, ?_, ?_, ?_⟩ <;>
      simp [Compiler.render, h, Compiler.shouldUpdateStats,
        AdaptiveSizer.getBaseline, hb]
  · by_cases hdev : jc.sizer.baseline * jc.threshold <
        goAbs (((execPlan root plan).length : Int) - jc.sizer.baseline) * 100
    · refine ⟨?_, ?_, ?_, ?_⟩ <;>
        simp [Compiler.render, h, Compiler.shouldUpdateStats, hb, hdev,
          AdaptiveSizer.getBaseline]
    · refine ⟨?_, ?_, ?_, ?_⟩ <;>
        simp [Compiler.render, h, Compiler.shouldUpdateStats, hb, hdev,
          AdaptiveSizer.getBaseline]

/-- Witness for the amended C7 at a compiler whose plan is one static
element of one byte: predicted size is 0 on a fresh sizer, so the update
condition holds via the left disjunct. -/
theorem render_updates_iff_deviation_witness :
    (jcW.render (Node.leaf [])).2.2 = true ↔
      jcW.sizer.getBaseline = 0 ∨
      goAbs (((execPlan (Node.leaf [])
            [.staticContent [7]]).length : Int) - jcW.sizer.getBaseline) * 100 >
        jcW.sizer.getBaseline * jcW.threshold :=
  (render_updates_iff_deviation jcW (Node.leaf []) [.staticContent [7]] rfl).2.1

/-! ## C4: the structural validator -/

/-- The validator's inner loop returns no error exactly when the path
resolves (the same resolution the executor performs). -/
theorem resolveErr_eq_none_iff (rest : List Nat) :
    ∀ (n : Node) (full : List Nat) (depth : Nat),
    resolveErr n full rest depth = none ↔ (resolve n rest).isSome := by
  induction rest with
  | nil => intro n full depth; simp [resolveErr, resolve]
  | cons idx r ih =>
    intro n full depth
    simp only [resolveErr, resolve]
    by_cases h : idx < n.nodes.length
    · rw [dif_pos h, List.getElem?_eq_getElem h]
      exact ih _ full (depth + 1)
    · rw [dif_neg h]
      have hnone : n.nodes[idx]? = none := by
        rw [List.getElem?_eq_none_iff]; omega
      rw [hnone]
      simp

/-- When the validator's inner loop reports an error, the reported fields
are correct: the full stored path is reported, the prefix up to the
reported depth resolves to a node whose child count is the reported
available count, the reported index is the path entry at that depth and is
out of range, and the whole path indeed fails to resolve. -/
theorem resolveErr_some_spec (rest : List Nat) :
    ∀ (n : Node) (full : List Nat) (depth : Nat) (e : MismatchError),
    resolveErr n full rest depth = some e →
    e.path = full ∧ depth ≤ e.depth ∧
    (∃ m, resolve n (rest.take (e.depth - depth)) = some m ∧
      rest.get? (e.depth - depth) = some e.idx ∧
      e.available = m.nodes.length ∧ m.nodes.length ≤ e.idx) ∧
    resolve n rest = none := by
  induction rest with
  | nil => intro n full depth e h; simp [resolveErr] at h
  | cons idx r ih =>
    intro n full depth e h
    simp only [resolveErr] at h
    by_cases hlt : idx < n.nodes.length
    · rw [dif_pos hlt] at h
      obtain ⟨hp, hd, ⟨m, hres, hget, hav, hout⟩, hfail⟩ :=
        ih n.nodes[idx] full (depth + 1) e h
      have hk : e.depth - depth = (e.depth - (depth + 1)) + 1 := by omega
      refine ⟨hp, by omega, ⟨m, ?_, ?_, hav, hout⟩, ?_⟩
      · rw [hk]
        simp only [List.take_succ_cons, resolve, List.getElem?_eq_getElem hlt]
        exact hres
      · rw [hk]; simpa using hget
      · simp only [resolve, List.getElem?_eq_getElem hlt]
        exact hfail
    · rw [dif_neg hlt] at h
      obtain rfl : (⟨full, depth, idx, n.nodes.length⟩ : MismatchError) = e := by
        simpa using h
      have hnone : n.nodes[idx]? = none := by
        rw [List.getElem?_eq_none_iff]; omega
      refine ⟨rfl, le_refl _, ⟨n, by simp [resolve], by simp, rfl, by simp; omega⟩, ?_⟩
      simp only [resolve, hnone]

/-- The element loop reports no error exactly when every dynamic path in
the plan resolves. -/
theorem validateElements_eq_none_iff (plan : ExecutionPlan) (root : Node) :
    validateElements root plan = none ↔
      ∀ p, CompiledElement.dynamicPath p ∈ plan → (resolve root p).isSome := by
  induction plan with
  | nil => simp [validateElements]
  | cons el rest ih =>
    cases el with
    | staticContent b =>
      simp [validateElements, ih]
    | dynamicPath q =>
      simp only [validateElements]
      cases hq : resolveErr root q q 0 with
      | some e =>
        simp only [List.mem_cons]
        constructor
        · intro hfalse; exact absurd hfalse (by simp)
        · intro hall
          have hsome : (resolve root q).isSome :=
            hall q (Or.inl rfl)
          have : resolveErr root q q 0 = none :=
            (resolveErr_eq_none_iff q root q 0).mpr hsome
          rw [this] at hq; exact absurd hq (by simp)
      | none =>
        have hsome : (resolve root q).isSome :=
          (resolveErr_eq_none_iff q root q 0).mp hq
        simp only [ih, List.mem_cons]
        constructor
        · rintro hall p (hp | hp)
          · injection hp with hpq
            subst hpq
            exact hsome
          · exact hall p hp
        · intro hall p hp
          exact hall p (Or.inr hp)

/-- When the element loop reports an error, it belongs to the first
unresolvable dynamic path in plan order, and its fields are correct. -/
theorem validateElements_some_spec (plan : ExecutionPlan) (root : Node) :
    ∀ e, validateElements root plan = some e →
    (∃ pre post, plan = pre ++ CompiledElement.dynamicPath e.path :: post ∧
      (∀ q, CompiledElement.dynamicPath q ∈ pre → (resolve root q).isSome) ∧
      resolve root e.path = none) ∧
    (∃ m, resolve root (e.path.take e.depth) = some m ∧
      e.path.get? e.depth = some e.idx ∧
      e.available = m.nodes.length ∧ m.nodes.length ≤ e.idx) := by
  induction plan with
  | nil => intro e h; simp [validateElements] at h
  | cons el rest ih =>
    intro e h
    cases el with
    | staticContent b =>
      simp only [validateElements] at h
      obtain ⟨⟨pre, post, hsplit, hpre, hfail⟩, hdetail⟩ := ih e h
      refine ⟨⟨.staticContent b :: pre, post, by simp [hsplit], ?_, hfail⟩, hdetail⟩
      intro q hq
      simp only [List.mem_cons] at hq
      cases hq with
      | inl hq => exact absurd hq (by simp)
      | inr hq => exact hpre q hq
    | dynamicPath q =>
      simp only [validateElements] at h
      cases hq : resolveErr root q q 0 with
      | some e0 =>
        rw [hq] at h
        obtain rfl : e0 = e := by simpa using h
        obtain ⟨hp, _, ⟨m, hres, hget, hav, hout⟩, hfail⟩ :=
          resolveErr_some_spec q root q 0 e0 hq
        subst hp
        refine ⟨⟨[], rest, by simp, by simp, hfail⟩,
          ⟨m, by simpa using hres, by simpa using hget, hav, hout⟩⟩
      | none =>
        rw [hq] at h
        have hsome : (resolve root q).isSome :=
          (resolveErr_eq_none_iff q root q 0).mp hq
        obtain ⟨⟨pre, post, hsplit, hpre, hfail⟩, hdetail⟩ := ih e h
        refine ⟨⟨.dynamicPath q :: pre, post, by simp [hsplit], ?_, hfail⟩, hdetail⟩
        intro q2 hq2
        simp only [List.mem_cons, CompiledElement.dynamicPath.injEq] at hq2
        cases hq2 with
        | inl hq2 => subst hq2; exact hsome
        | inr hq2 => exact hpre q2 hq2

/-- C4: `Validate(root)` returns nil when no plan has been built; with a
plan, it returns nil exactly when every `DynamicPath` in the plan resolves
in `root`, and otherwise returns a structure-mismatch error for the first
unresolvable `DynamicPath`, correctly reporting the failing path, the
depth, the expected child index and the number of available children.
(The model's validator produces no output bytes by construction, matching
"without rendering anything".) -/
theorem validate_spec (jc : Compiler) (root : Node) :
    (jc.executionPlan = none → jc.validate root = none) ∧
    (∀ plan, jc.executionPlan = some plan →
      ((jc.validate root = none ↔
        ∀ p, CompiledElement.dynamicPath p ∈ plan → (resolve root p).isSome) ∧
      (∀ e, jc.validate root = some e →
        (∃ pre post, plan = pre ++ CompiledElement.dynamicPath e.path :: post ∧
          (∀ q, CompiledElement.dynamicPath q ∈ pre → (resolve root q).isSome) ∧
          resolve root e.path = none) ∧
        (∃ m, resolve root (e.path.take e.depth) = some m ∧
          e.path.get? e.depth = some e.idx ∧
          e.available = m.nodes.length ∧ m.nodes.length ≤ e.idx)))) := by
  refine ⟨fun hnone => by simp [Compiler.validate, hnone], ?_⟩
  intro plan hplan
  constructor
  · rw [Compiler.validate, hplan]
    exact validateElements_eq_none_iff plan root
  · intro e he
    rw [Compiler.validate, hplan] at he
    exact validateElements_some_spec plan root e he

/-- Witness for C4: on a plan with a dynamic path at index 1, validation
against a two-child tree succeeds, and a compiler without a plan validates
trivially. -/
theorem validate_spec_witness :
    (jcV.validate rootOk = none ↔
      ∀ p, CompiledElement.dynamicPath p ∈ planV → (resolve rootOk p).isSome) ∧
    newCompiler.validate rootSmall = none :=
  ⟨((validate_spec jcV rootOk).2 planV rfl).1,
    (validate_spec newCompiler rootSmall).1 rfl⟩

/-! ## C2: fully static trees -/

/-- Walking an entirely static subtree appends its full rendering to the
static buffer and adds no plan elements (the final `else` branch of
`walk`). -/
theorem walk_static (n : Node) (sb : Bytes) (plan : ExecutionPlan)
    (path : List Nat) (h : isDynamic n = false) :
    walk n sb plan path = (sb ++ render n, plan) := by
  cases n with
  | dyn b cs => simp [isDynamic, isDynamicNode] at h
  | leaf b => simp [walk]
  | element o c cs =>
    have hcs : anyDynamic cs = false := by
      simpa [isDynamic, isDynamicNode, Node.nodes] using h
    simp [walk, hcs]
  | container cs =>
    have hcs : anyDynamic cs = false := by
      simpa [isDynamic, isDynamicNode, Node.nodes] using h
    simp [walk, hcs]

/-- Counterexample to C2 as stated: an empty fragment is a fully static
tree, but its direct rendering is empty, so nothing is ever written to the
static buffer and the compiled plan has zero elements, not exactly one. -/
theorem compile_fully_static_cex :
    isDynamic (Node.container []) = false ∧
    compile (Node.container []) = [] ∧
    (compile (Node.container [])).length ≠ 1 := by
  refine ⟨?_, compile_container_nil, ?_⟩
  · simp [isDynamic, isDynamicNode, anyDynamic, Node.nodes]
  · rw [compile_container_nil]; simp

/-- C2 (amended): every fully static tree whose direct rendering is
nonempty compiles to an execution plan consisting of exactly one
`StaticContent` element whose bytes are identical to the direct rendering.
(Nonemptiness is forced: a static tree rendering zero bytes produces an
empty plan, see the counterexample.) -/
theorem compile_fully_static (root : Node) (hstatic : isDynamic root = false)
    (hne : render root ≠ []) :
    compile root = [CompiledElement.staticContent (render root)] := by
  have hw := walk_static root [] [] [] hstatic
  have hlen : 0 < (render root).length := List.length_pos.mpr hne
  simp [compile, hw, hlen]

/-- Witness for the amended C2 at a one-byte static leaf. -/
theorem compile_fully_static_witness :
    isDynamic (Node.leaf [5]) = false ∧ render (Node.leaf [5]) ≠ [] ∧
    compile (Node.leaf [5]) =
      [CompiledElement.staticContent (render (Node.leaf [5]))] :=
  ⟨by simp [isDynamic, isDynamicNode, Node.nodes, anyDynamic],
   by simp [render],
   compile_fully_static (Node.leaf [5])
     (by simp [isDynamic, isDynamicNode, Node.nodes, anyDynamic])
     (by simp [render])⟩

/-! ## C1: a reused plan reflects the current tree -/

mutual

/-- Structurally similar trees with no dynamic content anywhere render to
identical bytes: outside dynamic nodes, similarity forces equal tags and
equal static content. -/
theorem similar_static_render (n1 n2 : Node) (hs : similar n1 n2 = true)
    (hd : isDynamic n1 = false) : render n1 = render n2 := by
  cases n1 with
  | dyn b cs => simp [isDynamic, isDynamicNode] at hd
  | leaf b =>
    cases n2 with
    | leaf b2 =>
      simp only [similar, beq_iff_eq] at hs
      rw [hs]
    | element o2 c2 cs2 => simp [similar] at hs
    | container cs2 => simp [similar] at hs
    | dyn b2 cs2 => simp [similar] at hs
  | element o c cs =>
    cases n2 with
    | element o2 c2 cs2 =>
      simp only [similar, Bool.and_eq_true, beq_iff_eq] at hs
      obtain ⟨⟨ho, hc⟩, hcs⟩ := hs
      have hstat : anyDynamic cs = false := by
        simpa [isDynamic, isDynamicNode, Node.nodes] using hd
      have hlist := similarList_static_render cs cs2 hcs hstat
      simp [render, ho, hc, hlist]
    | leaf b2 => simp [similar] at hs
    | container cs2 => simp [similar] at hs
    | dyn b2 cs2 => simp [similar] at hs
  | container cs =>
    cases n2 with
    | container cs2 =>
      simp only [similar] at hs
      have hstat : anyDynamic cs = false := by
        simpa [isDynamic, isDynamicNode, Node.nodes] using hd
      have hlist := similarList_static_render cs cs2 hs hstat
      simp [render, hlist]
    | leaf b2 => simp [similar] at hs
    | element o2 c2 cs2 => simp [similar] at hs
    | dyn b2 cs2 => simp [similar] at hs
termination_by sizeOf n1

/-- List version of `similar_static_render`. -/
theorem similarList_static_render (cs1 cs2 : List Node)
    (hs : similarList cs1 cs2 = true) (hd : anyDynamic cs1 = false) :
    renderList cs1 = renderList cs2 := by
  cases cs1 with
  | nil =>
    cases cs2 with
    | nil => rfl
    | cons m ms => simp [similarList] at hs
  | cons n ns =>
    cases cs2 with
    | nil => simp [similarList] at hs
    | cons m ms =>
      simp only [similarList, Bool.and_eq_true] at hs
      have hd1 : isDynamic n = false ∧ anyDynamic ns = false := by
        simpa [anyDynamic] using hd
      have h1 := similar_static_render n m hs.1 hd1.1
      have h2 := similarList_static_render ns ms hs.2 hd1.2
      simp [renderList, h1, h2]
termination_by sizeOf cs1

end

mutual

/-- The walk simulation: if `n1` (the node being compiled, at position
`path` of the original tree) is structurally similar to `n2` (the node at
the same position of the current tree `root2`), then executing the plan
fragment produced by walking `n1` against `root2` — together with the
pending static buffer — extends the previously accumulated output by
exactly the direct rendering of `n2`. -/
theorem walk_sim (root2 n1 n2 : Node) (sb : Bytes) (plan : ExecutionPlan)
    (path : List Nat) (hs : similar n1 n2 = true)
    (hr : resolve root2 path = some n2) :
    execPlan root2 (walk n1 sb plan path).2 ++ (walk n1 sb plan path).1 =
      execPlan root2 plan ++ sb ++ render n2 := by
  cases n1 with
  | dyn b cs =>
    by_cases hsb : sb.length > 0
    · simp [walk, hsb, execPlan_append, execPlan, elementRender,
        dynamicPathRender, hr, List.append_assoc]
    · have hsbe : sb = [] := by
        cases sb with
        | nil => rfl
        | cons x xs => simp at hsb
      subst hsbe
      simp [walk, execPlan_append, execPlan, elementRender,
        dynamicPathRender, hr]
  | leaf b =>
    have hd : isDynamic (Node.leaf b) = false := by
      simp [isDynamic, isDynamicNode, Node.nodes, anyDynamic]
    have hrend := similar_static_render (Node.leaf b) n2 hs hd
    simp [walk, hrend, List.append_assoc]
  | element o c cs =>
    by_cases hdyn : anyDynamic cs = true
    · cases n2 with
      | element o2 c2 cs2 =>
        simp only [similar, Bool.and_eq_true, beq_iff_eq] at hs
        obtain ⟨⟨ho, hc⟩, hcs⟩ := hs
        subst ho; subst hc
        have hres : ∀ k (hk : k < cs2.length),
            resolve root2 (path ++ [0 + k]) = some (cs2.get ⟨k, hk⟩) := by
          intro k hk
          rw [resolve_append, hr]
          simp [resolve, Node.nodes, List.getElem?_eq_getElem hk]
        have hkids := walkChildren_sim root2 cs cs2 (sb ++ o) plan path 0
          hcs hres
        simp only [walk, if_pos hdyn]
        rw [← List.append_assoc, hkids, render]
        simp [List.append_assoc]
      | leaf b2 => simp [similar] at hs
      | container cs2 => simp [similar] at hs
      | dyn b2 cs2 => simp [similar] at hs
    · have hdf : anyDynamic cs = false := by
        revert hdyn; cases anyDynamic cs <;> simp
      have hd : isDynamic (Node.element o c cs) = false := by
        simp [isDynamic, isDynamicNode, Node.nodes, hdf]
      have hrend := similar_static_render (Node.element o c cs) n2 hs hd
      simp [walk, hdf, hrend, List.append_assoc]
  | container cs =>
    by_cases hdyn : anyDynamic cs = true
    · cases n2 with
      | container cs2 =>
        simp only [similar] at hs
        have hres : ∀ k (hk : k < cs2.length),
            resolve root2 (path ++ [0 + k]) = some (cs2.get ⟨k, hk⟩) := by
          intro k hk
          rw [resolve_append, hr]
          simp [resolve, Node.nodes, List.getElem?_eq_getElem hk]
        have hkids := walkChildren_sim root2 cs cs2 sb plan path 0 hs hres
        simp only [walk, if_pos hdyn]
        rw [hkids, render]
      | leaf b2 => simp [similar] at hs
      | element o2 c2 cs2 => simp [similar] at hs
      | dyn b2 cs2 => simp [similar] at hs
    · have hdf : anyDynamic cs = false := by
        revert hdyn; cases anyDynamic cs <;> simp
      have hd : isDynamic (Node.container cs) = false := by
        simp [isDynamic, isDynamicNode, Node.nodes, hdf]
      have hrend := similar_static_render (Node.container cs) n2 hs hd
      simp [walk, hdf, hrend, List.append_assoc]
termination_by sizeOf n1

/-- The child-loop simulation: walking similar child lists starting at
child index `i` extends the accumulated output by the concatenated direct
rendering of the current tree's corresponding children. -/
theorem walkChildren_sim (root2 : Node) (cs1 cs2 : List Node) (sb : Bytes)
    (plan : ExecutionPlan) (path : List Nat) (i : Nat)
    (hs : similarList cs1 cs2 = true)
    (hres : ∀ k (hk : k < cs2.length),
      resolve root2 (path ++ [i + k]) = some (cs2.get ⟨k, hk⟩)) :
    execPlan root2 (walkChildren cs1 sb plan path i).2 ++
        (walkChildren cs1 sb plan path i).1 =
      execPlan root2 plan ++ sb ++ renderList cs2 := by
  cases cs1 with
  | nil =>
    cases cs2 with
    | nil => simp [walkChildren, renderList]
    | cons m ms => simp [similarList] at hs
  | cons a ns =>
    cases cs2 with
    | nil => simp [similarList] at hs
    | cons b ms =>
      simp only [similarList, Bool.and_eq_true] at hs
      have h0 : resolve root2 (path ++ [i]) = some b := by
        simpa using hres 0 (by simp)
      have ha := walk_sim root2 a b sb plan (path ++ [i]) hs.1 h0
      have hres1 : ∀ k (hk : k < ms.length),
          resolve root2 (path ++ [i + 1 + k]) = some (ms.get ⟨k, hk⟩) := by
        intro k hk
        have hx := hres (k + 1) (by simp; omega)
        have harith : i + (k + 1) = i + 1 + k := by omega
        rw [harith] at hx
        simpa using hx
      have htail := walkChildren_sim root2 ns ms
        (walk a sb plan (path ++ [i])).1 (walk a sb plan (path ++ [i])).2
        path (i + 1) hs.2 hres1
      simp only [walkChildren]
      rw [htail, ha, renderList]
      simp [List.append_assoc]
termination_by sizeOf cs1

end

/-- Executing the plan compiled from `t1` against a structurally similar
tree `t2` reproduces the direct rendering of `t2` byte for byte. -/
theorem compile_exec_similar (t1 t2 : Node) (h : similar t1 t2 = true) :
    execPlan t2 (compile t1) = render t2 := by
  have hw := walk_sim t2 t1 t2 [] [] [] h (by simp [resolve])
  simp only [execPlan, List.map_nil, List.flatten_nil, List.nil_append,
    List.append_nil] at hw
  by_cases hsb : (walk t1 [] [] []).1.length > 0
  · simp only [compile, if_pos hsb, execPlan_append]
    rw [← hw]
    simp [execPlan, elementRender]
  · have hsbe : (walk t1 [] [] []).1 = [] := by
      cases hx : (walk t1 [] [] []).1 with
      | nil => rfl
      | cons x xs => rw [hx] at hsb; simp at hsb
    simp only [compile, if_neg hsb]
    rw [← hw, hsbe]
    simp [execPlan]

/-- The first `Render` call on a compiler without a plan stores the plan
compiled from its tree. -/
theorem fresh_render_plan (jc : Compiler) (root : Node)
    (hjc : jc.executionPlan = none) :
    (jc.render root).2.1.executionPlan = some (compile root) := by
  simp only [Compiler.render, Compiler.compileStep, hjc]
  split <;> simp

/-- A `Render` call on a compiler that already holds a plan outputs the
plan executed against the current root. -/
theorem render_with_plan_output (jc : Compiler) (root : Node)
    (plan : ExecutionPlan) (h : jc.executionPlan = some plan) :
    (jc.render root).1 = execPlan root plan := by
  simp only [Compiler.render, h]
  split <;> simp

/-- C1: for every compiler and every pair of structurally identical trees
that differ only in dynamic content, rendering `t1` first (which builds and
freezes the plan) and then rendering `t2` on the same compiler produces for
`t2` exactly the bytes of directly rendering `t2`: the frozen static runs
coincide with `t2`'s static bytes and every dynamic position is re-resolved
in `t2`. -/
theorem plan_reuse_renders_current_tree (jc : Compiler) (t1 t2 : Node)
    (hjc : jc.executionPlan = none) (h : similar t1 t2 = true) :
    execPlan t2 (compile t1) = render t2 ∧
    (jc.render t1).2.1.executionPlan = some (compile t1) ∧
    ((jc.render t1).2.1.render t2).1 = render t2 := by
  have hmain := compile_exec_similar t1 t2 h
  refine ⟨hmain, fresh_render_plan jc t1 hjc, ?_⟩
  rw [render_with_plan_output _ t2 (compile t1) (fresh_render_plan jc t1 hjc),
    hmain]

/-- Witness for C1 at the `<div>Hello Alice</div>` / `<div>Hello Bob</div>`
pair: same structure, different dynamic content. -/
theorem plan_reuse_renders_current_tree_witness :
    execPlan T2w (compile T1w) = render T2w ∧
    (newCompiler.render T1w).2.1.executionPlan = some (compile T1w) ∧
    ((newCompiler.render T1w).2.1.render T2w).1 = render T2w :=
  plan_reuse_renders_current_tree newCompiler T1w T2w rfl
    (by simp [T1w, T2w, similar, similarList])

end FluentJit
